import Mathlib

/-!
Verification of the MCP client core of the `yac` repository.

The repository contains two generations of the client: `src/yac/...`
(namespace `Yac` below) and `src/yet_claude_code/...` (namespace `Ycc`
below).  Both are embedded faithfully, statement by statement, from the
Python sources:

* `yac/mcp/simple_session.py` and `yet_claude_code/mcp/simple_session.py`
  (JSON-RPC framing, response correlation, large-response reassembly),
* `yac/mcp/client.py` and `yet_claude_code/mcp/client.py` (connection
  registry, tool-catalog cache),
* `yac/cli/error_handlers.py` (failure classifiers, network retry).

External library behaviour that the code calls into is modelled
explicitly: `json.loads` is an abstract parse function passed as a
parameter, the byte stream of a child process is a list of read events,
and `Popen.send_signal`'s "do nothing once the process has exited" check
is a small process-state machine.
-/

namespace McpCore

/-- JSON values, as produced by `json.loads` on a peer message.  Objects
are insertion-ordered key/value lists (Python `dict`).  Arrays are not
needed by the verified operations and are omitted. -/
inductive Json where
  | null : Json
  | bool (b : Bool) : Json
  | num (n : Int) : Json
  | str (s : String) : Json
  | obj (fields : List (String × Json)) : Json

/-- `m.get k` / first-match lookup on an association list keyed by
strings (Python `dict` access; model lists carry no duplicate keys). -/
def alGet {α : Type} : List (String × α) → String → Option α
  | [], _ => none
  | p :: t, k => if p.1 == k then some p.2 else alGet t k

/-- `k in m` on an association list keyed by strings. -/
def alHas {α : Type} : List (String × α) → String → Bool
  | [], _ => false
  | p :: t, k => p.1 == k || alHas t k

/-- `m[k] = v` on an association list: replace in place if the key is
present, otherwise append (Python `dict` assignment semantics). -/
def alSet {α : Type} : List (String × α) → String → α → List (String × α)
  | [], k, v => [(k, v)]
  | p :: t, k, v => if p.1 == k then (k, v) :: t else p :: alSet t k v

/-- Python `"k" in d` on a parsed JSON object; `False` on non-objects. -/
def Json.hasField : Json → String → Bool
  | .obj fs, k => alHas fs k
  | _, _ => false

/-- Python `d["k"]` lookup on a parsed JSON object. -/
def Json.getField : Json → String → Option Json
  | .obj fs, k => alGet fs k
  | _, _ => none

/-- A Python `dict` holding a tool descriptor (JSON-object payload). -/
abbrev Dict := List (String × Json)

/-- `s` has `pat` as a substring (Python `pat in s`). -/
def containsStr (s pat : String) : Prop := ∃ a b, s = a ++ pat ++ b

theorem alGet_alSet_self {α : Type} (m : List (String × α)) (k : String)
    (v : α) : alGet (alSet m k v) k = some v := by
  induction m with
  | nil => simp [alGet, alSet]
  | cons p t ih =>
    by_cases hp : (p.1 == k) = true
    · simp [alGet, alSet, hp]
    · simp only [alSet, hp, if_false, alGet]
      rw [if_neg (by simp_all), ih]

theorem alHas_alSet_self {α : Type} (m : List (String × α)) (k : String)
    (v : α) : alHas (alSet m k v) k = true := by
  induction m with
  | nil => simp [alHas, alSet]
  | cons p t ih =>
    by_cases hp : (p.1 == k) = true
    · simp [alHas, alSet, hp]
    · simp only [alSet, hp, if_false, alHas]
      rw [ih]; simp

/-! ## Wire model

A child process's stdout is modelled as a list of read events.  A byte
string is a list of `Seg`ments (opaque byte runs with a length); the
Python `json.loads((...).decode().strip())` pipeline is an abstract
function `Parse` from byte strings to JSON, passed as a parameter and
instantiated concretely in witnesses. -/

/-- An opaque run of bytes: an identity tag and a byte count. -/
structure Seg where
  tag : Nat
  len : Nat
  deriving DecidableEq

/-- A byte string, as the list of segments it is made of. -/
abbrev Data := List Seg

/-- Byte length of a byte string. -/
def dataLen (d : Data) : Nat := (d.map Seg.len).sum

/-- Models `json.loads(bytes.decode().strip())`: `none` when the decode
raises `json.JSONDecodeError`. -/
abbrev Parse := Data → Option Json

/-- One result of `await wait_for(process.stdout.read(8192), 1.0)` inside
the reassembly loop. -/
inductive ChunkEv where
  | data (c : Seg) : ChunkEv   -- nonempty bytes (`read` returns ≤ 8192 bytes)
  | eof : ChunkEv              -- `read` returned `b""`
  | timeout : ChunkEv          -- the 1.0 s `wait_for` fired

/-- One result of reading the next line of peer output.  `.timeout`
stands for "5 seconds elapsed with no line available": under `yac`'s
`wait_for(readline, 5.0)` it raises `TimeoutError`; under
`yet_claude_code`'s bare `readline()` it is merely time passing and the
read continues with the following events. -/
inductive LineEv where
  | msg (line : Data) (chunks : List ChunkEv) : LineEv
  | eof : LineEv
  | timeout : LineEv

/-- Cap of the reassembly loop: `while len(additional_data) < 1024 * 1024`. -/
def reasmCap : Nat := 1024 * 1024

/-- Outcome of the large-response reassembly loop
(`simple_session.py`, the `except json.JSONDecodeError:` block). -/
inductive ReasmOut where
  | parsed (j : Json) : ReasmOut -- a combined-data parse succeeded (`break`)
  | tooLarge : ReasmOut   -- `while`/`else`: "Response too large or malformed"
  | hung : ReasmOut       -- chunk `TimeoutError`: "Response incomplete or server hung"
  | eofBreak : ReasmOut   -- `if not chunk: break` leaves `response` unassigned

/-- The reassembly loop, identical in both `simple_session.py` files:
accumulate chunks while the additional data is below `reasmCap`,
re-attempting a parse of `response_line + additional_data` after each
chunk.  An exhausted event list means the peer stays silent, so the 1 s
`wait_for` fires, like an explicit `.timeout` event. -/
def reassemble (parse : Parse) (line : Data) :
    List ChunkEv → Data → ReasmOut
  | [], acc => if dataLen acc < reasmCap then .hung else .tooLarge
  | .timeout :: _, acc => if dataLen acc < reasmCap then .hung else .tooLarge
  | .eof :: _, acc => if dataLen acc < reasmCap then .eofBreak else .tooLarge
  | .data c :: rest, acc =>
    if dataLen acc < reasmCap then
      match parse (line ++ acc ++ [c]) with
      | some j => .parsed j
      | none => reassemble parse line rest (acc ++ [c])
    else .tooLarge

/-- Python `"id" in response and response["id"] == request_id` (the
response's `id` value equals the outstanding integer request id). -/
def idMatches (j : Json) (reqId : Int) : Bool :=
  j.hasField "id" &&
    (match j.getField "id" with
     | some (.num m) => m == reqId
     | _ => false)

/-- Final outcome of a `_send_request` call.  Error constructors carry
the classification of the exception message raised with `{method}`
interpolated; `.errUnbound` is the uncaught Python `UnboundLocalError`
reached when the reassembly loop breaks on an empty chunk with
`response` never assigned; `.blocked` marks a call that never returns
(an unbounded read against a peer that stays silent forever). -/
inductive SendOut where
  | ok (j : Json) : SendOut
  | errNoResponse : SendOut  -- "No response from server for {method}"
  | errServer (e : Json) : SendOut  -- "Server error for {method}: {error}"
  | errNoMatch : SendOut  -- "Could not find matching response for {method}"
  | errTooLarge : SendOut -- "Response too large or malformed for {method}"
  | errHung : SendOut     -- "Response incomplete or server hung for {method}"
  | errReadFailed : SendOut -- ycc: "Failed to read large response for {method}: ..."
  | errUnbound : SendOut
  | blocked : SendOut

/-- `yac/mcp/simple_session.py` lines 77-105: parse one line, entering
the reassembly loop on `json.JSONDecodeError`.  `prev` is the value the
Python local `response` still holds from an earlier loop iteration: on
the empty-chunk `break` the stale value is silently reused, and with no
earlier iteration the `if "id" in response` line raises
`UnboundLocalError`. -/
def readMessage (parse : Parse) (line : Data) (chunks : List ChunkEv)
    (prev : Option Json) : Except SendOut Json :=
  match parse line with
  | some j => .ok j
  | none =>
    match reassemble parse line chunks [] with
    | .parsed j => .ok j
    | .tooLarge => .error .errTooLarge
    | .hung => .error .errHung
    | .eofBreak =>
      match prev with
      | none => .error .errUnbound
      | some j => .ok j

/-- `yac/mcp/simple_session.py` lines 67-124: the
`for _ in range(max_attempts)` correlation loop.  Fuel is the number of
remaining attempts (`max_attempts = 10` at the top call).  A message
whose `id` matches ends the loop (`break`), then a JSON-RPC `error`
field is surfaced; a notification (`method` field) — and likewise any
non-matching message — consumes one attempt and the loop reads the next
line. -/
def yacReadLoop (parse : Parse) (reqId : Int) :
    Nat → List LineEv → Option Json → SendOut
  | 0, _, _ => .errNoMatch
  | _ + 1, [], _ => .errNoResponse          -- silent peer: the 5 s wait_for fires
  | _ + 1, .timeout :: _, _ => .errNoResponse
  | _ + 1, .eof :: _, _ => .errNoResponse   -- `if not response_line:` raise
  | n + 1, .msg line chunks :: rest, prev =>
    match readMessage parse line chunks prev with
    | .error e => e
    | .ok j =>
      if idMatches j reqId then
        if j.hasField "error" then .errServer ((j.getField "error").getD .null)
        else .ok j
      else yacReadLoop parse reqId n rest (some j)

/-- Session state: the `_request_id` counter, initialised to 1. -/
structure SessionState where
  request_id : Int

/-- `_next_id`: pre-increment, then return (both session files). -/
def nextId (st : SessionState) : Int × SessionState :=
  (st.request_id + 1, ⟨st.request_id + 1⟩)

/-- The JSON-RPC request object written to the child's stdin by `yac`'s
`_send_request` (`params` attached when `params is not None`). -/
def buildRequest (rid : Int) (method : String) (params : Option Json) : Json :=
  .obj ([("jsonrpc", .str "2.0"), ("id", .num rid), ("method", .str method)] ++
    (match params with
     | some p => [("params", p)]
     | none => []))

/-- Python truthiness of a JSON value (`if params:`). -/
def Json.truthy : Json → Bool
  | .null => false
  | .bool b => b
  | .num n => n != 0
  | .str s => !(s == "")
  | .obj fs => !fs.isEmpty

/-- The request object written by `yet_claude_code`'s `_send_request`
(`params` attached under truthiness: `if params:`). -/
def yccBuildRequest (rid : Int) (method : String) (params : Option Json) : Json :=
  .obj ([("jsonrpc", .str "2.0"), ("id", .num rid), ("method", .str method)] ++
    (match params with
     | some p => if p.truthy then [("params", p)] else []
     | none => []))

/-- State, wire request and outcome of one `_send_request` call. -/
structure SendResult where
  state : SessionState
  request : Json
  outcome : SendOut

/-- `yac/mcp/simple_session.py` `_send_request`: allocate an id, build
and write the request, run the correlation loop with 10 attempts. -/
def yacSendRequest (parse : Parse) (st : SessionState) (method : String)
    (params : Option Json) (events : List LineEv) : SendResult :=
  let rid := (nextId st).1
  { state := (nextId st).2
    request := buildRequest rid method params
    outcome := yacReadLoop parse rid 10 events none }

/-- `initialize` params sent by `yac`'s `connect` (lines 35-42). -/
def yacInitParams : Json :=
  .obj [("protocolVersion", .str "2024-11-05"),
        ("capabilities", .obj []),
        ("clientInfo", .obj [("name", .str "yac"), ("version", .str "0.1.0")])]

/-- `yac`'s `connect` on a STDIO config: spawn, then send `initialize`
through `_send_request`; `True` unless an exception was raised (then
caught, printed, `False`). -/
def yacConnect (parse : Parse) (st : SessionState) (events : List LineEv) :
    SendResult × Bool :=
  let r := yacSendRequest parse st "initialize" (some yacInitParams) events
  (r, match r.outcome with
      | .ok _ => true
      | _ => false)

/-- `yet_claude_code/mcp/simple_session.py` lines 36-41: the initial
`readline()` is *not* wrapped in `wait_for`, so elapsed time (`.timeout`
events) only makes it keep waiting; it returns a line, hits EOF, or —
against a peer that stays silent forever — never returns. -/
def yccFirstLine : List LineEv → SendOut ⊕ (Data × List ChunkEv)
  | [] => .inl .blocked
  | .timeout :: rest => yccFirstLine rest
  | .eof :: _ => .inl .errNoResponse  -- raise "No response from server for {method}"
  | .msg line chunks :: _ => .inr (line, chunks)

/-- `yet_claude_code`'s single-read message step (lines 41-73): like
`yac`'s but with no correlation loop, so there is never a stale
`response`, and the `while`/`else` "too large" exception is re-wrapped
by the trailing `except Exception` into "Failed to read large response
for {method}". -/
def yccReadMessage (parse : Parse) (line : Data) (chunks : List ChunkEv) :
    Except SendOut Json :=
  match parse line with
  | some j => .ok j
  | none =>
    match reassemble parse line chunks [] with
    | .parsed j => .ok j
    | .tooLarge => .error .errReadFailed
    | .hung => .error .errHung
    | .eofBreak => .error .errUnbound

/-- `yet_claude_code/mcp/simple_session.py` `_send_request`: one read,
no id correlation — whatever JSON the first parseable line holds is
returned as the response (after surfacing a JSON-RPC `error` field). -/
def yccSendRequest (parse : Parse) (st : SessionState) (method : String)
    (params : Option Json) (events : List LineEv) : SendResult :=
  let rid := (nextId st).1
  { state := (nextId st).2
    request := yccBuildRequest rid method params
    outcome :=
      match yccFirstLine events with
      | .inl e => e
      | .inr (line, chunks) =>
        match yccReadMessage parse line chunks with
        | .error e => e
        | .ok j =>
          if j.hasField "error" then .errServer ((j.getField "error").getD .null)
          else .ok j }

/-- The literal `initialize` request written by
`yet_claude_code/mcp/client.py` lines 69-78 (hard-coded `"id": 1`,
sent before a `SimpleClientSession` exists). -/
def yccInitRequest : Json :=
  .obj [("jsonrpc", .str "2.0"), ("id", .num 1),
        ("method", .str "initialize"),
        ("params", .obj
          [("protocolVersion", .str "2024-11-05"),
           ("capabilities", .obj
             [("roots", .obj [("listChanged", .bool true)]),
              ("sampling", .obj [])]),
           ("clientInfo", .obj
             [("name", .str "yet-claude-code"), ("version", .str "1.0.0")])])]

/-! ## Connection registries

`yac/mcp/client.py` (`Yac` prefix) and `yet_claude_code/mcp/client.py`
(`ycc` prefix).  A stored session is summarised by the outcomes its
method calls would produce; registry operations additionally report the
list of live JSON-RPC requests they issue, so that cache-only
operations are distinguishable from live queries. -/

/-- A live JSON-RPC request issued to a connected server. -/
structure MCPRequest where
  server : String
  method : String
  deriving DecidableEq

/-- Behaviour summary of a `yac` `SimpleSession`: what each session
method returns, or the message of the exception it raises. -/
structure YacSession where
  connect : Except String Bool
  list_tools : Except String (List Dict)
  call_tool : Except String Json

/-- `yac` `MCPClient` state: `self.sessions` and `self.tools_cache`. -/
structure YacClientState where
  sessions : List (String × YacSession)
  tools_cache : List (String × List Dict)

/-- `yac/mcp/client.py` lines 49-55 (`call_tool`): an unknown server
name raises `ValueError(f"Server {server_name} not connected")`;
otherwise the call is delegated with no exception handling.  `.error`
is an exception propagating to the caller. -/
def yacCallTool (st : YacClientState) (server_name tool_name : String)
    (arguments : Json) : Except String Json :=
  match alGet st.sessions server_name with
  | none => .error ("Server " ++ server_name ++ " not connected")
  | some s => s.call_tool

/-- Python truthiness of an `Optional[str]` (`if server_name:`). -/
def optStrTruthy : Option String → Bool
  | none => false
  | some s => !(s == "")

/-- `yac/mcp/client.py` lines 57-64 (`list_tools`): a pure read of
`self.tools_cache` (returned state, issued requests, returned dict). -/
def yacListTools (st : YacClientState) (server_name : Option String) :
    YacClientState × List MCPRequest × List (String × List Dict) :=
  if optStrTruthy server_name then
    let n := server_name.getD ""
    if alHas st.tools_cache n then
      (st, [], [(n, (alGet st.tools_cache n).getD [])])
    else (st, [], [])
  else (st, [], st.tools_cache)  -- `self.tools_cache.copy()`

/-- `yac/mcp/client.py` lines 76-84 (`_cache_server_tools`): any
exception — from the lookup or the live `tools/list` — caches `[]`. -/
def yacCacheServerTools (st : YacClientState) (n : String) : YacClientState :=
  match alGet st.sessions n with
  | none => { st with tools_cache := alSet st.tools_cache n [] }
  | some s =>
    match s.list_tools with
    | .ok tools => { st with tools_cache := alSet st.tools_cache n tools }
    | .error _ => { st with tools_cache := alSet st.tools_cache n [] }

/-- `yac/mcp/client.py` lines 20-34 (`add_server`): connect, store the
session on success, cache its tools, return `True`; a `False` connect or
any exception yields `False` with the session not stored. -/
def yacAddServer (st : YacClientState) (n : String) (s : YacSession) :
    YacClientState × Bool :=
  match s.connect with
  | .error _ => (st, false)
  | .ok false => (st, false)
  | .ok true =>
    let st1 : YacClientState := { st with sessions := alSet st.sessions n s }
    (yacCacheServerTools st1 n, true)

/-- One item of a `yet_claude_code` session `call_tool` result's
`.content` list: the registry appends `item.text` when the attribute
exists, else `str(item.data)`. -/
inductive ContentItem where
  | text (s : String) : ContentItem
  | data (s : String) : ContentItem

/-- The shim `ToolResult` a `yet_claude_code` `SimpleClientSession`
returns from `call_tool` (it always carries `content` and `isError`). -/
structure SessToolResult where
  content : List ContentItem
  isError : Bool

/-- Behaviour summary of a `yet_claude_code` session. -/
structure YccSession where
  list_tools : Except String (List Dict)
  call_tool : Except String SessToolResult

/-- `MCPToolCall` — its dataclass lives in `yet_claude_code/mcp/config.py`.
Modelled from the spec: "ToolInvocation: serverName, toolName,
arguments". -/
structure MCPToolCall where
  name : String
  arguments : Json
  server_name : String

/-- `MCPToolResult` — its dataclass lives in `yet_claude_code/mcp/config.py`.
Modelled from the spec: "ToolResult: content (text), isError (boolean),
optional metadata". -/
structure MCPToolResult where
  content : String
  is_error : Bool

/-- `yet_claude_code` `MCPClient` state (the parts the verified
operations touch). -/
structure YccClientState where
  sessions : List (String × YccSession)

/-- `yet_claude_code/mcp/client.py` lines 144-166 (`call_tool`): an
unknown server returns an error result; a delegated call flattens the
content items and wraps any exception into an error result — the
operation is total and never raises. -/
def yccCallTool (st : YccClientState) (tc : MCPToolCall) : MCPToolResult :=
  match alGet st.sessions tc.server_name with
  | none => ⟨"Server " ++ tc.server_name ++ " not connected", true⟩
  | some s =>
    match s.call_tool with
    | .ok result =>
      let content := result.content.foldl
        (fun acc item =>
          match item with
          | .text t => acc ++ t
          | .data d => acc ++ d) ""
      ⟨content, result.isError⟩
    | .error e => ⟨"Tool call failed: " ++ e, true⟩

/-- `yet_claude_code/mcp/client.py` lines 126-142 (`list_tools`): for
each server to check that has a session, issue a *live* `tools/list`
request; an exception stores `[]` for that server. -/
def yccListTools (st : YccClientState) (server_name : Option String) :
    List MCPRequest × List (String × List Dict) :=
  let namesToCheck : List String :=
    if optStrTruthy server_name then [server_name.getD ""]
    else st.sessions.map (fun p => p.1)
  namesToCheck.foldl
    (fun (acc : List MCPRequest × List (String × List Dict)) n =>
      match alGet st.sessions n with
      | none => acc
      | some s =>
        let reqs := acc.1 ++ [⟨n, "tools/list"⟩]
        match s.list_tools with
        | .ok ts => (reqs, alSet acc.2 n ts)
        | .error _ => (reqs, alSet acc.2 n []))
    ([], [])

/-! ## `get_all_tools` with an explicit dict heap

`yac/mcp/client.py` lines 66-74 copies each cached tool dict
(`tool.copy()`) and mutates only the copy.  To make the copy-not-alias
property provable, dicts live in a heap (allocation appends; `copy`
allocates) and the cache holds addresses. -/

abbrev Heap := List Dict

/-- Dereference a dict address. -/
def heapGet (h : Heap) (a : Nat) : Dict := h.getD a []

/-- Per-tool body of `get_all_tools`: `tool_with_server = tool.copy()`
(allocate at the fresh address `h.length`) then
`tool_with_server["server_name"] = server_name` (mutate the copy). -/
def gatTool (h : Heap) (n : String) (a : Nat) : Heap × Nat :=
  let d := heapGet h a
  let h1 := (h ++ [d]).set h.length (alSet d "server_name" (Json.str n))
  (h1, h.length)

/-- The inner `for tool in tools` loop of `get_all_tools`. -/
def gatServer (n : String) : Heap → List Nat → Heap × List Nat
  | h, [] => (h, [])
  | h, a :: as =>
    let (h1, a') := gatTool h n a
    let (h2, rs) := gatServer n h1 as
    (h2, a' :: rs)

/-- `yac/mcp/client.py` lines 66-74 (`get_all_tools`): flatten the
cache, one annotated copy per cached tool, in cache order. -/
def getAllTools : Heap → List (String × List Nat) → Heap × List Nat
  | h, [] => (h, [])
  | h, (n, as) :: rest =>
    let (h1, rs) := gatServer n h as
    let (h2, rs') := getAllTools h1 rest
    (h2, rs ++ rs')

/-- The claim-level description of `get_all_tools`'s output: each cached
tool dict, copied, with the owning server name under `"server_name"`. -/
def getAllToolsSpec (h : Heap) (cache : List (String × List Nat)) : List Dict :=
  cache.flatMap (fun e =>
    e.2.map (fun a => alSet (heapGet h a) "server_name" (Json.str e.1)))

/-! ## Session shutdown (`close`)

Identical in both `simple_session.py` files.  `terminate`/`kill` go
through `Popen.send_signal`, which polls the process first and delivers
nothing once it has exited, so the model tracks the signals actually
delivered.  The peer's behaviour is summarised by how many seconds after
SIGTERM it would exit (`none`: it ignores SIGTERM). -/

inductive ProcState where
  | running
  | exited
  deriving DecidableEq

inductive Sig where
  | sigterm
  | sigkill
  deriving DecidableEq

/-- A session as `close` sees it: `self.process` (still set, merely
exited, after a previous `close`). -/
structure CloseSession where
  process : Option ProcState

/-- `wait_for(self.process.wait(), timeout=5.0)` grace period. -/
def closeGraceTimeout : Nat := 5

/-- `close()` (`yac` lines 145-153, `yet_claude_code` lines 127-135):
terminate, wait up to 5 s, kill on `TimeoutError` and wait again.
Returns the new state and the signals delivered. -/
def close (s : CloseSession) (exitsAfterTermSecs : Option Nat) :
    CloseSession × List Sig :=
  match s.process with
  | none => (s, [])
  | some .exited => (s, [])  -- send_signal polls and delivers nothing; wait returns at once
  | some .running =>
    match exitsAfterTermSecs with
    | some t =>
      if t ≤ closeGraceTimeout then (⟨some .exited⟩, [.sigterm])
      else (⟨some .exited⟩, [.sigterm, .sigkill])
    | none => (⟨some .exited⟩, [.sigterm, .sigkill])

/-! ## Network error handler (`yac/cli/error_handlers.py` lines 125-166) -/

/-- A tool as the handler sees it: a name and what `ainvoke` does on its
k-th invocation (`.error` is a raised exception's text). -/
structure StubTool where
  name : String
  invoke : Nat → Except String String

/-- `next((t for t in tools if t.name == tool_name), None)`. -/
def findTool (tools : List StubTool) (n : String) : Option StubTool :=
  tools.find? (fun t => t.name == n)

/-- `NetworkErrorHandler.__init__` defaults. -/
structure NetworkErrorHandler where
  max_retries : Nat := 2
  retry_delay : ℚ := 1

/-- ASCII lower-casing of one character (`str.lower()` on the ASCII
error texts the handlers inspect). -/
def lowerChar (c : Char) : Char :=
  if 'A' ≤ c ∧ c ≤ 'Z' then Char.ofNat (c.toNat + 32) else c

/-- `str(error).lower()` for ASCII text. -/
def strLower (s : String) : String := ⟨s.data.map lowerChar⟩

/-- The indicator phrases of `NetworkErrorHandler.can_handle`. -/
def networkPhrases : List String :=
  ["connection", "timeout", "network", "unreachable", "dns", "socket"]

/-- `can_handle`: any indicator phrase occurs in the lower-cased error
text. -/
def networkCanHandle (errorText : String) : Prop :=
  ∃ p ∈ networkPhrases, containsStr (strLower errorText) p

/-- Observable outcome of `NetworkErrorHandler.handle`: the returned
message, the number of times the stub tool was invoked, and the sleeps
performed (`retry_delay * (attempt + 1)`). -/
structure HandleOutcome where
  message : String
  invocations : Nat
  delays : List ℚ

/-- The `for attempt in range(self.max_retries)` loop of
`NetworkErrorHandler.handle`, lines 152-166.  `remaining` counts the
attempts left (`attempt = max_retries - remaining`); each iteration
sleeps, finds the tool, invokes it; a success returns the retry-result
message, an exception on the last attempt returns the persisted-failure
message, and with no tool found the loop falls through to the generic
message. -/
def networkHandleLoop (h : NetworkErrorHandler) (tools : List StubTool)
    (tool_name : String) :
    Nat → Nat → List ℚ → HandleOutcome
  | 0, calls, delays =>
    ⟨"Network error occurred. Please check your connection and try again.",
      calls, delays⟩
  | remaining + 1, calls, delays =>
    let attempt := h.max_retries - (remaining + 1)
    let delays' := delays ++ [h.retry_delay * (attempt + 1 : ℚ)]
    match findTool tools tool_name with
    | some t =>
      match t.invoke calls with
      | .ok r =>
        ⟨"Network retry successful after " ++ toString (attempt + 1) ++
            " attempts: " ++ r,
          calls + 1, delays'⟩
      | .error e =>
        if attempt == h.max_retries - 1 then
          ⟨"Network error persisted after " ++ toString h.max_retries ++
              " retries. Last error: " ++ e,
            calls + 1, delays'⟩
        else networkHandleLoop h tools tool_name remaining (calls + 1) delays'
    | none => networkHandleLoop h tools tool_name remaining calls delays'

/-- `NetworkErrorHandler.handle` (observable part). -/
def networkHandle (h : NetworkErrorHandler) (tools : List StubTool)
    (tool_name : String) : HandleOutcome :=
  networkHandleLoop h tools tool_name h.max_retries 0 []

/-! ## Claim C5: session shutdown -/

/-- C5: `close` delivers SIGTERM and, only when the grace period of
`closeGraceTimeout` seconds elapses without the process exiting,
escalates to SIGKILL; and it is idempotent — a second `close` (or a
`close` on a never-connected session) changes nothing, delivers no
signal, and completes without error (the model function is total). -/
theorem close_terminates_then_kills_and_is_idempotent :
    (∀ t : Nat, t ≤ closeGraceTimeout →
      close ⟨some .running⟩ (some t) = (⟨some .exited⟩, [.sigterm])) ∧
    (∀ t : Nat, closeGraceTimeout < t →
      close ⟨some .running⟩ (some t) = (⟨some .exited⟩, [.sigterm, .sigkill])) ∧
    close ⟨some .running⟩ none = (⟨some .exited⟩, [.sigterm, .sigkill]) ∧
    (∀ (s : CloseSession) (e e' : Option Nat),
      close (close s e).1 e' = ((close s e).1, [])) := by
  refine ⟨?_, ?_, rfl, ?_⟩
  · intro t ht
    simp [close, ht]
  · intro t ht
    simp [close, Nat.not_le.mpr ht]
  · intro s e e'
    rcases s with ⟨_ | p⟩
    · rfl
    · cases p with
      | running =>
        rcases e with _ | t
        · rfl
        · by_cases ht : t ≤ closeGraceTimeout <;> simp [close, ht]
      | exited => rfl

/-- Witness for C5 at concrete grace behaviours. -/
theorem close_terminates_then_kills_and_is_idempotent_witness :
    close ⟨some .running⟩ (some 3) = (⟨some .exited⟩, [.sigterm]) ∧
    close ⟨some .running⟩ (some 9) = (⟨some .exited⟩, [.sigterm, .sigkill]) ∧
    close (close ⟨some .running⟩ (some 3)).1 none =
      ((close ⟨some .running⟩ (some 3)).1, []) :=
  ⟨close_terminates_then_kills_and_is_idempotent.1 3 (by decide),
   close_terminates_then_kills_and_is_idempotent.2.1 9 (by decide),
   close_terminates_then_kills_and_is_idempotent.2.2.2 ⟨some .running⟩ (some 3) none⟩

/-! ## Claim C9: `add_server` tolerates a failing catalog call -/

/-- C9: when `connect` succeeds but the immediate `list_tools` raises,
`add_server` stores the session, caches an empty tool list for the
server and still returns `True`. -/
theorem add_server_caches_empty_on_list_failure
    (st : YacClientState) (n : String) (s : YacSession) (e : String)
    (hc : s.connect = .ok true) (hl : s.list_tools = .error e) :
    (yacAddServer st n s).2 = true ∧
    alGet (yacAddServer st n s).1.tools_cache n = some [] ∧
    alGet (yacAddServer st n s).1.sessions n = some s := by
  unfold yacAddServer
  rw [hc]
  dsimp only
  unfold yacCacheServerTools
  rw [alGet_alSet_self]
  dsimp only
  rw [hl]
  exact ⟨rfl, alGet_alSet_self _ _ _, alGet_alSet_self _ _ _⟩

/-- Witness for C9 on a concrete registry and session. -/
theorem add_server_caches_empty_on_list_failure_witness :
    (yacAddServer ⟨[], []⟩ "files"
        ⟨.ok true, .error "tools/list failed", .ok .null⟩).2 = true ∧
    alGet (yacAddServer ⟨[], []⟩ "files"
        ⟨.ok true, .error "tools/list failed", .ok .null⟩).1.tools_cache
      "files" = some [] ∧
    alGet (yacAddServer ⟨[], []⟩ "files"
        ⟨.ok true, .error "tools/list failed", .ok .null⟩).1.sessions
      "files" = some ⟨.ok true, .error "tools/list failed", .ok .null⟩ :=
  add_server_caches_empty_on_list_failure ⟨[], []⟩ "files"
    ⟨.ok true, .error "tools/list failed", .ok .null⟩ "tools/list failed"
    rfl rfl

/-! ## Claim C8: network-error classifier retry policy -/

/-- C8: an error text containing "timeout" (lower-cased) is accepted by
`can_handle`; `handle` sleeps `retry_delay * attemptNumber` before each
attempt; a tool that succeeds at once yields the retry-success message
carrying the result after one invocation; with `max_retries = 2`, a tool
whose invocation always raises is invoked exactly twice and the
persisted-failure message is returned (no exception escapes: the model
is a total function). -/
theorem network_handler_retries_with_linear_delay
    (err : String) (hto : containsStr (strLower err) "timeout")
    (name : String) (d : ℚ) (f : Nat → String)
    (g : Nat → Except String String) (r : String) (hg : g 0 = .ok r) :
    networkCanHandle err ∧
    networkHandle ⟨2, d⟩ [⟨name, fun k => .error (f k)⟩] name =
      ⟨"Network error persisted after 2 retries. Last error: " ++ f 1,
        2, [d * 1, d * 2]⟩ ∧
    networkHandle ⟨2, d⟩ [⟨name, g⟩] name =
      ⟨"Network retry successful after 1 attempts: " ++ r, 1, [d * 1]⟩ := by
  have hft : ∀ fi : Nat → Except String String,
      findTool [⟨name, fi⟩] name = some ⟨name, fi⟩ := by
    intro fi
    simp [findTool]
  refine ⟨⟨"timeout", by simp [networkPhrases], hto⟩, ?_, ?_⟩
  · simp only [networkHandle, networkHandleLoop, hft]
    norm_num
    rfl
  · simp only [networkHandle, networkHandleLoop, hft, hg]
    norm_num
    rfl

/-- Witness for C8 with a concrete error text, stub tools and delay. -/
theorem network_handler_retries_with_linear_delay_witness :
    containsStr (strLower "Read timeout on socket") "timeout" ∧
    (networkCanHandle "Read timeout on socket" ∧
     networkHandle ⟨2, 1⟩ [⟨"fetch", fun k => .error (toString k)⟩] "fetch" =
       ⟨"Network error persisted after 2 retries. Last error: " ++ toString 1,
         2, [(1 : ℚ) * 1, (1 : ℚ) * 2]⟩ ∧
     networkHandle ⟨2, 1⟩ [⟨"fetch", fun _ => .ok "ok"⟩] "fetch" =
       ⟨"Network retry successful after 1 attempts: " ++ "ok", 1, [(1 : ℚ) * 1]⟩) :=
  ⟨⟨"read ", " on socket", rfl⟩,
   network_handler_retries_with_linear_delay "Read timeout on socket"
     ⟨"read ", " on socket", rfl⟩ "fetch" 1 (fun k => toString k)
     (fun _ => .ok "ok") "ok" rfl⟩

/-! ## Claim C1: `callTool` on an unknown server -/

/-- C1 counterexample: the claim says `callTool` on an unknown server
"returns a ToolResult with isError=true ... it never raises/propagates
an exception"; `yac`'s registry instead raises
`ValueError("Server S not connected")` (the `.error` of the model is a
propagating exception). -/
theorem yac_call_tool_unknown_server_raises :
    yacCallTool ⟨[], []⟩ "S" "read_file" .null =
      .error "Server S not connected" := rfl

/-- C1 amended: the `yet_claude_code` registry's `call_tool` on an
unknown server returns `MCPToolResult` with `is_error = true` whose
content contains "not connected", and is total (never an exception);
the `yac` registry's `call_tool` instead raises
`ValueError(f"Server {server_name} not connected")`. -/
theorem call_tool_unknown_server_error_result
    (cst : YccClientState) (tc : MCPToolCall)
    (hycc : alGet cst.sessions tc.server_name = none)
    (yst : YacClientState) (n tool : String) (args : Json)
    (hyac : alGet yst.sessions n = none) :
    ((yccCallTool cst tc).is_error = true ∧
      containsStr (yccCallTool cst tc).content "not connected") ∧
    yacCallTool yst n tool args =
      .error ("Server " ++ n ++ " not connected") := by
  refine ⟨?_, ?_⟩
  · unfold yccCallTool
    rw [hycc]
    refine ⟨rfl, ⟨"Server " ++ tc.server_name ++ " ", "", ?_⟩⟩
    rw [String.append_empty,
      String.append_assoc ("Server " ++ tc.server_name) " " "not connected"]
    rfl
  · unfold yacCallTool
    rw [hyac]

/-- Witness for C1 (amended) on empty registries. -/
theorem call_tool_unknown_server_error_result_witness :
    alGet (YccClientState.mk []).sessions "S" = none ∧
    (((yccCallTool ⟨[]⟩ ⟨"read_file", .null, "S"⟩).is_error = true ∧
       containsStr (yccCallTool ⟨[]⟩ ⟨"read_file", .null, "S"⟩).content
         "not connected") ∧
     yacCallTool ⟨[], []⟩ "S" "read_file" .null =
       .error ("Server " ++ "S" ++ " not connected")) :=
  ⟨rfl, call_tool_unknown_server_error_result ⟨[]⟩ ⟨"read_file", .null, "S"⟩
    rfl ⟨[], []⟩ "S" "read_file" .null rfl⟩

/-! ## Claim C4: `listTools` as a cache read -/

/-- A concrete connected session used in counterexamples. -/
def demoYccSession : YccSession :=
  ⟨.ok [[("name", .str "read_file")]], .error "unused"⟩

/-- C4 counterexample: the claim says `listTools` "performs no live
tools/list request to any Session"; `yet_claude_code`'s registry issues
a live `tools/list` to the named server's session. -/
theorem ycc_list_tools_issues_live_request :
    (yccListTools ⟨[("S", demoYccSession)]⟩ (some "S")).1 =
      [⟨"S", "tools/list"⟩] ∧
    (yccListTools ⟨[("S", demoYccSession)]⟩ (some "S")).1 ≠ [] := by
  constructor
  · rfl
  · decide

/-- C4 amended: `yac`'s registry `list_tools` is purely a cache read —
it issues no live request, leaves the state (sessions and tool cache)
unchanged, and returns the cached catalog for the named server (or the
whole cache copy when no name is given); `yet_claude_code`'s registry
instead performs a live `tools/list` per consulted session
(counterexample above). -/
theorem yac_list_tools_pure_cache_read (st : YacClientState) (n : String)
    (hn : ¬ n = "") :
    yacListTools st none = (st, [], st.tools_cache) ∧
    (alHas st.tools_cache n = true →
      yacListTools st (some n) =
        (st, [], [(n, (alGet st.tools_cache n).getD [])])) ∧
    (alHas st.tools_cache n = false →
      yacListTools st (some n) = (st, [], [])) := by
  have hb : (n == "") = false := by
    rw [beq_eq_false_iff_ne]
    exact hn
  have ht : optStrTruthy (some n) = true := by
    unfold optStrTruthy
    dsimp only
    rw [hb]
    rfl
  refine ⟨rfl, ?_, ?_⟩
  · intro hc
    simp [yacListTools, ht, hc]
  · intro hc
    simp [yacListTools, ht, hc]

/-- Witness for C4 (amended) on a concrete one-entry cache. -/
theorem yac_list_tools_pure_cache_read_witness :
    ¬ "S" = "" ∧
    (yacListTools ⟨[], [("S", [[("name", Json.str "read_file")]])]⟩ none =
        (⟨[], [("S", [[("name", Json.str "read_file")]])]⟩, [],
          [("S", [[("name", Json.str "read_file")]])]) ∧
     (alHas [("S", [[("name", Json.str "read_file")]])] "S" = true →
       yacListTools ⟨[], [("S", [[("name", Json.str "read_file")]])]⟩
           (some "S") =
         (⟨[], [("S", [[("name", Json.str "read_file")]])]⟩, [],
           [("S", (alGet [("S", [[("name", Json.str "read_file")]])] "S").getD
             [])])) ∧
     (alHas [("S", [[("name", Json.str "read_file")]])] "S" = false →
       yacListTools ⟨[], [("S", [[("name", Json.str "read_file")]])]⟩
           (some "S") =
         (⟨[], [("S", [[("name", Json.str "read_file")]])]⟩, [], []))) :=
  ⟨by decide,
   yac_list_tools_pure_cache_read
     ⟨[], [("S", [[("name", Json.str "read_file")]])]⟩ "S" (by decide)⟩

/-! ## Claim C3: the initial-read timeout -/

/-- C3 counterexample: the claim says every request "terminates and
fails with ... rather than blocking indefinitely" when no output line
arrives within the timeout; `yet_claude_code`'s `_send_request` wraps
its initial `readline()` in no `wait_for`, so against a silent peer the
call never returns. -/
theorem ycc_send_request_blocks_on_silent_peer :
    (yccSendRequest (fun _ => none) ⟨1⟩ "tools/list" none
      [.timeout]).outcome = .blocked := rfl

/-- C3 amended: in the `yac` session every request's initial line read
is bounded by the 5 s `wait_for` and fails with
"No response from server for {method}" on timeout — and likewise on
EOF; the `yet_claude_code` session produces that failure only on EOF,
and its unbounded initial `readline` waits through any amount of silent
time (`.timeout` events), never returning against a peer that stays
silent forever. -/
theorem send_request_initial_read_timeout (parse : Parse)
    (st : SessionState) (method : String) (params : Option Json)
    (rest : List LineEv) :
    (yacSendRequest parse st method params (.timeout :: rest)).outcome =
      .errNoResponse ∧
    (yacSendRequest parse st method params (.eof :: rest)).outcome =
      .errNoResponse ∧
    (yccSendRequest parse st method params (.eof :: rest)).outcome =
      .errNoResponse ∧
    (∀ k : Nat,
      (yccSendRequest parse st method params
        (List.replicate k .timeout)).outcome = .blocked) := by
  refine ⟨rfl, rfl, rfl, ?_⟩
  have hfl : ∀ k : Nat, yccFirstLine (List.replicate k .timeout) =
      .inl .blocked := by
    intro k
    induction k with
    | zero => rfl
    | succ m ih =>
      rw [List.replicate_succ]
      exact ih
  intro k
  show (match yccFirstLine (List.replicate k .timeout) with
        | .inl e => e
        | .inr (line, chunks) =>
          match yccReadMessage parse line chunks with
          | .error e => e
          | .ok j =>
            if j.hasField "error" then
              .errServer ((j.getField "error").getD .null)
            else .ok j) = SendOut.blocked
  rw [hfl]

/-! ## Claim C6: request-id allocation -/

/-- Session states reached from a fresh session (`_request_id = 1`)
after `k` requests. -/
def stateAfter : Nat → SessionState
  | 0 => ⟨1⟩
  | k + 1 => (nextId (stateAfter k)).2

theorem stateAfter_request_id (k : Nat) :
    (stateAfter k).request_id = 1 + k := by
  induction k with
  | zero => rfl
  | succ m ih =>
    show (nextId (stateAfter m)).2.request_id = 1 + (m + 1)
    unfold nextId
    dsimp only
    rw [ih]
    omega

/-- C6 counterexample: the claim says "id 1 consumed by the initialize
handshake"; in `yac`'s session the `initialize` request itself goes
through `_send_request`, whose pre-incremented counter gives it id 2 —
id 1 never reaches the wire. -/
theorem yac_initialize_request_has_id_two :
    ((yacConnect (fun _ => none) ⟨1⟩ []).1.request.getField "id" =
        some (.num 2) ∧
      (yacConnect (fun _ => none) ⟨1⟩ []).1.request.getField "method" =
        some (.str "initialize")) ∧
    some (Json.num 2) ≠ some (Json.num 1) := by
  refine ⟨⟨rfl, rfl⟩, ?_⟩
  intro h
  have h2 : (2 : Int) = 1 := by
    injection h with h1
    injection h1
  omega

/-- C6 amended: each session's counter starts at 1 and is
pre-incremented, so the ids a session allocates are 2, 3, 4, ... —
strictly increasing, never reused; in `yet_claude_code` id 1 is consumed
by the hand-written `initialize` request the registry sends before the
session exists, and the session's first request takes id 2; in `yac` the
`initialize` handshake itself takes id 2 (counterexample above). -/
theorem request_ids_strictly_increase_from_two :
    (∀ k : Nat, (nextId (stateAfter k)).1 = (k : Int) + 2) ∧
    (∀ j k : Nat, j < k →
      (nextId (stateAfter j)).1 < (nextId (stateAfter k)).1) ∧
    yccInitRequest.getField "id" = some (.num 1) ∧
    (∀ (parse : Parse) (method : String) (params : Option Json)
      (events : List LineEv),
      (yccSendRequest parse ⟨1⟩ method params events).request.getField "id" =
        some (.num 2)) := by
  have hid : ∀ k : Nat, (nextId (stateAfter k)).1 = (k : Int) + 2 := by
    intro k
    show (stateAfter k).request_id + 1 = (k : Int) + 2
    rw [stateAfter_request_id]
    omega
  refine ⟨hid, ?_, rfl, ?_⟩
  · intro j k hjk
    rw [hid, hid]
    omega
  · intro parse method params events
    rcases params with _ | p
    · rfl
    · show (yccBuildRequest 2 method (some p)).getField "id" = some (.num 2)
      unfold yccBuildRequest
      by_cases hp : p.truthy = true <;> simp [Json.getField, alGet, hp]

/-- Witness for C6 (amended): the strict-increase part at j = 0, k = 3. -/
theorem request_ids_strictly_increase_from_two_witness :
    0 < 3 ∧ (nextId (stateAfter 0)).1 < (nextId (stateAfter 3)).1 :=
  ⟨by decide,
   request_ids_strictly_increase_from_two.2.1 0 3 (by decide)⟩

/-! ## Claim C2: response correlation -/

theorem readMessage_of_parse (parse : Parse) (line : Data)
    (chunks : List ChunkEv) (prev : Option Json) (j : Json)
    (h : parse line = some j) :
    readMessage parse line chunks prev = .ok j := by
  unfold readMessage
  rw [h]

/-- One unrolling of the correlation loop on a delivered message. -/
theorem yacReadLoop_step_msg (parse : Parse) (reqId : Int) (fuel : Nat)
    (line : Data) (chunks : List ChunkEv) (rest : List LineEv)
    (prev : Option Json) (j : Json)
    (h : readMessage parse line chunks prev = .ok j) :
    yacReadLoop parse reqId (fuel + 1) (.msg line chunks :: rest) prev =
      if idMatches j reqId then
        if j.hasField "error" then .errServer ((j.getField "error").getD .null)
        else .ok j
      else yacReadLoop parse reqId fuel rest (some j) := by
  conv_lhs => rw [yacReadLoop]
  rw [h]

/-- One unrolling of the correlation loop when the read step fails. -/
theorem yacReadLoop_step_err (parse : Parse) (reqId : Int) (fuel : Nat)
    (line : Data) (chunks : List ChunkEv) (rest : List LineEv)
    (prev : Option Json) (e : SendOut)
    (h : readMessage parse line chunks prev = .error e) :
    yacReadLoop parse reqId (fuel + 1) (.msg line chunks :: rest) prev = e := by
  conv_lhs => rw [yacReadLoop]
  rw [h]

/-- With fewer parseable non-matching messages than remaining attempts,
the loop skips them all and returns the matching response. -/
theorem yacReadLoop_skips_to_match (parse : Parse) (reqId : Int) (rd : Data)
    (r : Json) (hr : parse rd = some r) (hm : idMatches r reqId = true)
    (he : r.hasField "error" = false) :
    ∀ (notifs : List (Data × Json)) (fuel : Nat) (rest : List LineEv)
      (prev : Option Json),
      (∀ p ∈ notifs, parse p.1 = some p.2) →
      (∀ p ∈ notifs, idMatches p.2 reqId = false) →
      notifs.length < fuel →
      yacReadLoop parse reqId fuel
        (notifs.map (fun p => .msg p.1 []) ++ .msg rd [] :: rest) prev =
        .ok r := by
  intro notifs
  induction notifs with
  | nil =>
    intro fuel rest prev _ _ hlen
    cases fuel with
    | zero => omega
    | succ f =>
      rw [List.map_nil, List.nil_append,
        yacReadLoop_step_msg parse reqId f rd [] rest prev r
          (readMessage_of_parse parse rd [] prev r hr),
        hm, he]
      rfl
  | cons p t ih =>
    intro fuel rest prev hp hq hlen
    cases fuel with
    | zero => omega
    | succ f =>
      rw [List.map_cons, List.cons_append,
        yacReadLoop_step_msg parse reqId f p.1 [] _ prev p.2
          (readMessage_of_parse parse p.1 [] prev p.2
            (hp p (List.mem_cons_self p t))),
        hq p (List.mem_cons_self p t)]
      have hlen' : t.length < f := by
        simp only [List.length_cons] at hlen
        omega
      rw [if_neg Bool.false_ne_true]
      exact ih f rest (some p.2)
        (fun q hq' => hp q (List.mem_cons_of_mem p hq'))
        (fun q hq' => hq q (List.mem_cons_of_mem p hq')) hlen'

/-- With as many parseable non-matching messages as attempts, the loop
exhausts its attempts and fails with the no-matching-response error. -/
theorem yacReadLoop_exhausts_attempts (parse : Parse) (reqId : Int) :
    ∀ (msgs : List (Data × Json)) (fuel : Nat) (rest : List LineEv)
      (prev : Option Json),
      (∀ p ∈ msgs, parse p.1 = some p.2) →
      (∀ p ∈ msgs, idMatches p.2 reqId = false) →
      msgs.length = fuel →
      yacReadLoop parse reqId fuel
        (msgs.map (fun p => .msg p.1 []) ++ rest) prev = .errNoMatch := by
  intro msgs
  induction msgs with
  | nil =>
    intro fuel rest prev _ _ hlen
    rw [← hlen]
    rfl
  | cons p t ih =>
    intro fuel rest prev hp hq hlen
    cases fuel with
    | zero => simp at hlen
    | succ f =>
      rw [List.map_cons, List.cons_append,
        yacReadLoop_step_msg parse reqId f p.1 [] _ prev p.2
          (readMessage_of_parse parse p.1 [] prev p.2
            (hp p (List.mem_cons_self p t))),
        hq p (List.mem_cons_self p t)]
      have hlen' : t.length = f := by
        simp only [List.length_cons] at hlen
        omega
      rw [if_neg Bool.false_ne_true]
      exact ih f rest (some p.2)
        (fun q hq' => hp q (List.mem_cons_of_mem p hq'))
        (fun q hq' => hq q (List.mem_cons_of_mem p hq')) hlen'

/-- Byte strings and messages for the correlation counterexample. -/
def segNotif : Seg := ⟨100, 40⟩

def segResp : Seg := ⟨101, 40⟩

/-- A one-way notification from the peer (a `method`, no `id`). -/
def notifJson : Json :=
  .obj [("jsonrpc", .str "2.0"), ("method", .str "notifications/message")]

/-- The response matching request id 2. -/
def respJson : Json :=
  .obj [("jsonrpc", .str "2.0"), ("id", .num 2), ("result", .obj [])]

/-- A concrete `json.loads` for the two wire lines above. -/
def demoParse : Parse := fun d =>
  if d = [segNotif] then some notifJson
  else if d = [segResp] then some respJson
  else none

/-- C2 counterexample: the claim says notifications "are discarded and
never returned as the response"; `yet_claude_code`'s `_send_request`
does no id correlation and returns the first parseable line — here the
peer's notification, not the matching response. -/
theorem ycc_send_request_returns_notification :
    (yccSendRequest demoParse ⟨1⟩ "tools/call" none
        [.msg [segNotif] [], .msg [segResp] []]).outcome = .ok notifJson ∧
    notifJson.hasField "method" = true ∧
    notifJson.hasField "id" = false ∧
    idMatches notifJson 2 = false :=
  ⟨rfl, rfl, rfl, rfl⟩

/-- C2 amended: in the `yac` session, parseable peer messages that do
not carry the outstanding id (notifications in particular) are skipped:
with fewer than 10 of them preceding the matching response, the
correlation loop returns exactly the matching response, and 10
non-matching messages exhaust the attempts and fail with the
could-not-find-matching-response error; the `yet_claude_code` session
performs no correlation and returns whatever the first parseable line
holds (counterexample above). -/
theorem send_request_correlates_responses_by_id
    (parse : Parse) (reqId : Int) (notifs : List (Data × Json)) (rd : Data)
    (r : Json) (rest : List LineEv) (prev : Option Json)
    (hn : ∀ p ∈ notifs, parse p.1 = some p.2)
    (hnm : ∀ p ∈ notifs, idMatches p.2 reqId = false)
    (hr : parse rd = some r) (hm : idMatches r reqId = true)
    (he : r.hasField "error" = false) (hlen : notifs.length < 10)
    (msgs : List (Data × Json))
    (hms : ∀ p ∈ msgs, parse p.1 = some p.2)
    (hmm : ∀ p ∈ msgs, idMatches p.2 reqId = false)
    (hms10 : msgs.length = 10)
    (st : SessionState) (method : String) (params : Option Json)
    (line : Data) (chunks : List ChunkEv) (j : Json)
    (hj : parse line = some j) (hje : j.hasField "error" = false) :
    yacReadLoop parse reqId 10
        (notifs.map (fun p => .msg p.1 []) ++ .msg rd [] :: rest) prev =
      .ok r ∧
    yacReadLoop parse reqId 10
        (msgs.map (fun p => .msg p.1 []) ++ rest) prev = .errNoMatch ∧
    (yccSendRequest parse st method params
        (.msg line chunks :: rest)).outcome = .ok j := by
  refine ⟨yacReadLoop_skips_to_match parse reqId rd r hr hm he notifs 10 rest
      prev hn hnm hlen,
    yacReadLoop_exhausts_attempts parse reqId msgs 10 rest prev hms hmm hms10,
    ?_⟩
  show (match yccFirstLine (.msg line chunks :: rest) with
        | .inl e => e
        | .inr (l, cs) =>
          match yccReadMessage parse l cs with
          | .error e => e
          | .ok jj =>
            if jj.hasField "error" then
              .errServer ((jj.getField "error").getD .null)
            else .ok jj) = SendOut.ok j
  show (match yccReadMessage parse line chunks with
        | .error e => e
        | .ok jj =>
          if jj.hasField "error" then
            .errServer ((jj.getField "error").getD .null)
          else .ok jj) = SendOut.ok j
  unfold yccReadMessage
  rw [hj]
  dsimp only
  rw [hje]
  rfl

/-- Witness for C2 (amended) at concrete wire traffic: one notification
then the matching response; ten notifications; and the first parseable
line for the `yet_claude_code` conjunct. -/
theorem send_request_correlates_responses_by_id_witness :
    demoParse [segNotif] = some notifJson ∧
    (yacReadLoop demoParse 2 10
        ([([segNotif], notifJson)].map (fun p => .msg p.1 []) ++
          .msg [segResp] [] :: []) none = .ok respJson ∧
     yacReadLoop demoParse 2 10
        ((List.replicate 10 (([segNotif] : Data), notifJson)).map
          (fun p => .msg p.1 []) ++ []) none = .errNoMatch ∧
     (yccSendRequest demoParse ⟨1⟩ "tools/call" none
        (.msg [segResp] [] :: [])).outcome = .ok respJson) := by
  refine ⟨rfl, send_request_correlates_responses_by_id demoParse 2
    [([segNotif], notifJson)] [segResp] respJson [] none
    ?_ ?_ rfl rfl rfl (by decide)
    (List.replicate 10 (([segNotif] : Data), notifJson)) ?_ ?_ (by decide)
    ⟨1⟩ "tools/call" none [segResp] [] respJson rfl rfl⟩
  · intro p hp
    rw [List.mem_singleton] at hp
    subst hp
    rfl
  · intro p hp
    rw [List.mem_singleton] at hp
    subst hp
    rfl
  · intro p hp
    rw [List.mem_replicate] at hp
    rw [hp.2]
    rfl
  · intro p hp
    rw [List.mem_replicate] at hp
    rw [hp.2]
    rfl

/-! ## Claim C7: large-response reassembly -/

theorem dataLen_append (a b : Data) :
    dataLen (a ++ b) = dataLen a + dataLen b := by
  simp [dataLen]

theorem dataLen_cons (c : Seg) (d : Data) :
    dataLen (c :: d) = c.len + dataLen d := by
  simp [dataLen]

/-- If the chunks' concatenation (after the accumulated data) parses,
none of its proper prefixes parse, each chunk is nonempty and the total
fits under the cap, the reassembly loop reconstructs exactly the parsed
value. -/
theorem reassemble_reconstructs (parse : Parse) (line : Data) :
    ∀ (post : List Seg) (acc : Data) (j : Json),
      post ≠ [] →
      (∀ c ∈ post, 1 ≤ c.len) →
      dataLen acc + dataLen post ≤ reasmCap →
      (∀ k, k < post.length → parse (line ++ acc ++ post.take k) = none) →
      parse (line ++ acc ++ post) = some j →
      reassemble parse line (post.map .data) acc = .parsed j := by
  intro post
  induction post with
  | nil =>
    intro acc j hne
    exact absurd rfl hne
  | cons c t ih =>
    intro acc j _ hlen hcap hpref hfull
    have hc1 : 1 ≤ c.len := hlen c (List.mem_cons_self c t)
    have hct : dataLen (c :: t) = c.len + dataLen t := dataLen_cons c t
    have hacc : dataLen acc < reasmCap := by omega
    show reassemble parse line (.data c :: t.map .data) acc = .parsed j
    rw [reassemble, if_pos hacc]
    cases t with
    | nil =>
      rw [hfull]
    | cons c' t' =>
      have hp1 : parse (line ++ acc ++ [c]) = none := by
        have h := hpref 1 (by simp)
        simpa using h
      rw [hp1]
      refine ih (acc ++ [c]) j (by simp) ?_ ?_ ?_ ?_
      · intro x hx
        exact hlen x (List.mem_cons_of_mem c hx)
      · rw [dataLen_append]
        have : dataLen [c] = c.len := by simp [dataLen]
        have hct' : dataLen (c' :: t') = c'.len + dataLen t' :=
          dataLen_cons c' t'
        have hc't : dataLen (c :: c' :: t') =
            c.len + dataLen (c' :: t') := dataLen_cons c (c' :: t')
        omega
      · intro k hk
        have h := hpref (k + 1) (by simpa using Nat.succ_lt_succ hk)
        rw [List.take_succ_cons] at h
        have e : line ++ acc ++ (c :: (c' :: t').take k) =
            line ++ (acc ++ [c]) ++ (c' :: t').take k := by simp
        rw [e] at h
        exact h
      · have e : line ++ acc ++ (c :: c' :: t') =
            line ++ (acc ++ [c]) ++ (c' :: t') := by simp
        rw [← e]
        exact hfull

/-- When no combined prefix ever parses and the chunks carry at least
the cap's worth of bytes, the loop fails with the too-large error. -/
theorem reassemble_caps_additional_data (parse : Parse) (line : Data)
    (hp : ∀ d, parse d = none) :
    ∀ (post : List Seg) (acc : Data),
      reasmCap ≤ dataLen acc + dataLen post →
      reassemble parse line (post.map .data) acc = .tooLarge := by
  intro post
  induction post with
  | nil =>
    intro acc hcap
    have h0 : dataLen ([] : List Seg) = 0 := rfl
    have : ¬ dataLen acc < reasmCap := by omega
    show reassemble parse line [] acc = .tooLarge
    rw [reassemble, if_neg this]
  | cons c t ih =>
    intro acc hcap
    show reassemble parse line (.data c :: t.map .data) acc = .tooLarge
    by_cases hacc : dataLen acc < reasmCap
    · rw [reassemble, if_pos hacc, hp]
      refine ih (acc ++ [c]) ?_
      rw [dataLen_append]
      have h1 : dataLen [c] = c.len := by simp [dataLen]
      have h2 : dataLen (c :: t) = c.len + dataLen t := dataLen_cons c t
      omega
    · rw [reassemble, if_neg hacc]

/-- C7 amended: (1) a response split into nonempty chunks whose
concatenation parses, with at most 1 MiB in total, is reconstructed and
the correlation loop behaves identically to a single-line delivery of
the whole response; (2) the 1 MiB bound applies to the *additional*
data accumulated by the loop — when nothing parses and the chunks carry
at least 1 MiB, the request fails with the too-large error (but a
response slightly over 1 MiB can still succeed, see the
counterexample); (3) when no further bytes arrive — silence or an
explicit 1 s chunk timeout — the request fails with the
incomplete-or-hung error instead of hanging. -/
theorem send_request_reassembles_within_cap
    (parse : Parse) (reqId : Int) (line : Data) (chunks : List Seg)
    (rest : List LineEv) (prev : Option Json) (j : Json) (fuel : Nat)
    (hne : chunks ≠ []) (hlens : ∀ c ∈ chunks, 1 ≤ c.len)
    (hcap : dataLen (line ++ chunks) ≤ reasmCap)
    (hpref : ∀ k, k < chunks.length → parse (line ++ chunks.take k) = none)
    (hfull : parse (line ++ chunks) = some j)
    (parse2 : Parse) (hp2 : ∀ d, parse2 d = none)
    (line2 : Data) (post2 : List Seg) (hcap2 : reasmCap ≤ dataLen post2)
    (ct : List ChunkEv) :
    yacReadLoop parse reqId (fuel + 1)
        (.msg line (chunks.map .data) :: rest) prev =
      yacReadLoop parse reqId (fuel + 1)
        (.msg (line ++ chunks) [] :: rest) prev ∧
    yacReadLoop parse2 reqId (fuel + 1)
        (.msg line2 (post2.map .data) :: rest) prev = .errTooLarge ∧
    yacReadLoop parse2 reqId (fuel + 1) (.msg line2 [] :: rest) prev =
      .errHung ∧
    yacReadLoop parse2 reqId (fuel + 1)
        (.msg line2 (.timeout :: ct) :: rest) prev = .errHung := by
  have hl : parse line = none := by
    have h := hpref 0 (by
      cases chunks with
      | nil => exact absurd rfl hne
      | cons a b => simp)
    simpa using h
  have hre : reassemble parse line (chunks.map .data) [] = .parsed j := by
    refine reassemble_reconstructs parse line chunks [] j hne hlens ?_ ?_ ?_
    · have : dataLen ([] : Data) = 0 := rfl
      rw [dataLen_append] at hcap
      omega
    · intro k hk
      have h := hpref k hk
      simpa using h
    · simpa using hfull
  refine ⟨?_, ?_, ?_, ?_⟩
  · rw [yacReadLoop_step_msg parse reqId fuel line (chunks.map .data) rest
        prev j (by
          unfold readMessage
          rw [hl, hre]),
      yacReadLoop_step_msg parse reqId fuel (line ++ chunks) [] rest prev j
        (readMessage_of_parse parse (line ++ chunks) [] prev j hfull)]
  · refine yacReadLoop_step_err parse2 reqId fuel line2 (post2.map .data)
      rest prev .errTooLarge ?_
    unfold readMessage
    rw [hp2 line2,
      reassemble_caps_additional_data parse2 line2 hp2 post2 [] (by
        have : dataLen ([] : Data) = 0 := rfl
        omega)]
  · refine yacReadLoop_step_err parse2 reqId fuel line2 [] rest prev
      .errHung ?_
    unfold readMessage
    rw [hp2 line2]
    rfl
  · refine yacReadLoop_step_err parse2 reqId fuel line2 (.timeout :: ct)
      rest prev .errHung ?_
    unfold readMessage
    rw [hp2 line2]
    rfl

/-- A response whose reconstruction needs 9 bytes, delivered as a
1-byte line and two 4-byte chunks (witness data for C7). -/
def wJson : Json := .obj [("id", .num 2), ("result", .str "w")]

def wParse : Parse := fun d => if 9 ≤ dataLen d then some wJson else none

def wChunks : List Seg := [⟨1, 4⟩, ⟨2, 4⟩]

/-- Witness for C7 (amended) at the concrete split above, plus an
always-failing parse against a cap-sized chunk list. -/
theorem send_request_reassembles_within_cap_witness :
    ([⟨1, 4⟩, ⟨2, 4⟩] : List Seg) ≠ [] ∧
    (yacReadLoop wParse 2 10 (.msg [⟨0, 1⟩] (wChunks.map .data) :: []) none =
        yacReadLoop wParse 2 10 (.msg ([⟨0, 1⟩] ++ wChunks) [] :: []) none ∧
     yacReadLoop (fun _ => none) 2 10
        (.msg [⟨0, 1⟩] (([⟨5, 1048576⟩] : List Seg).map .data) :: []) none =
       .errTooLarge ∧
     yacReadLoop (fun _ => none) 2 10 (.msg [⟨0, 1⟩] [] :: []) none =
       .errHung ∧
     yacReadLoop (fun _ => none) 2 10
        (.msg [⟨0, 1⟩] (.timeout :: []) :: []) none = .errHung) := by
  refine ⟨by decide, send_request_reassembles_within_cap wParse 2 [⟨0, 1⟩]
    wChunks [] none wJson 9 (by decide) (by decide) (by decide) ?_ rfl
    (fun _ => none) (fun _ => rfl) [⟨0, 1⟩] [⟨5, 1048576⟩] (by decide) []⟩
  intro k hk
  have hw : wChunks.length = 2 := rfl
  rcases k with _ | _ | k
  · rfl
  · rfl
  · omega

/-- Data for the over-cap counterexample: a 100-byte line that does not
parse and 128 chunks of 8192 bytes; the concatenation parses only once
all 1 048 676 bytes are present — more than the 1 MiB cap. -/
def bigJson : Json := .obj [("id", .num 2), ("result", .str "big")]

def bigParse : Parse := fun d => if 1048676 ≤ dataLen d then some bigJson else none

def bigLine : Data := [⟨0, 100⟩]

def bigChunks : List Seg := List.replicate 128 ⟨1, 8192⟩

set_option maxRecDepth 100000 in
/-- C7 counterexample: the claim says "for a response exceeding 1 MiB it
fails with a 'too large' classification"; the cap is checked against
the additional data *before* each 8 KiB read, so this response of
1 048 676 bytes (> 1 MiB = 1 048 576) is reconstructed successfully. -/
theorem reassemble_succeeds_beyond_one_mib :
    reassemble bigParse bigLine (bigChunks.map .data) [] = .parsed bigJson ∧
    reasmCap < dataLen (bigLine ++ bigChunks) := by
  constructor
  · rfl
  · decide

/-! ## Claim C10: `get_all_tools` annotates copies only -/

theorem set_append_len {α : Type} (h : List α) (d v : α) :
    (h ++ [d]).set h.length v = h ++ [v] := by
  induction h with
  | nil => rfl
  | cons a t ih =>
    show a :: (t ++ [d]).set t.length v = a :: (t ++ [v])
    rw [ih]

theorem gatTool_eq (h : Heap) (n : String) (a : Nat) :
    gatTool h n a =
      (h ++ [alSet (heapGet h a) "server_name" (.str n)], h.length) := by
  unfold gatTool
  dsimp only
  rw [set_append_len]

theorem heapGet_append (h ext : Heap) (a : Nat) (ha : a < h.length) :
    heapGet (h ++ ext) a = heapGet h a := by
  unfold heapGet
  rw [List.getD_append _ _ _ _ ha]

theorem heapGet_append_self (h : Heap) (v : Dict) :
    heapGet (h ++ [v]) h.length = v := by
  unfold heapGet
  rw [List.getD_append_right _ _ _ _ (le_refl _)]
  simp

theorem gatServer_cons (n : String) (h : Heap) (a : Nat) (t : List Nat) :
    gatServer n h (a :: t) =
      ((gatServer n (h ++ [alSet (heapGet h a) "server_name" (.str n)]) t).1,
        h.length ::
          (gatServer n (h ++ [alSet (heapGet h a) "server_name" (.str n)])
            t).2) := by
  show (match gatTool h n a with
        | (h1, a') =>
          match gatServer n h1 t with
          | (h2, rs) => (h2, a' :: rs)) = _
  rw [gatTool_eq]

theorem getAllTools_cons (h : Heap) (n : String) (as : List Nat)
    (rest : List (String × List Nat)) :
    getAllTools h ((n, as) :: rest) =
      ((getAllTools (gatServer n h as).1 rest).1,
        (gatServer n h as).2 ++ (getAllTools (gatServer n h as).1 rest).2) :=
  rfl

/-- The inner loop only ever appends to the heap. -/
theorem gatServer_ext (n : String) :
    ∀ (as : List Nat) (h : Heap), ∃ ext, (gatServer n h as).1 = h ++ ext := by
  intro as
  induction as with
  | nil =>
    intro h
    exact ⟨[], by simp [gatServer]⟩
  | cons a t ih =>
    intro h
    obtain ⟨ext, he⟩ :=
      ih (h ++ [alSet (heapGet h a) "server_name" (.str n)])
    refine ⟨[alSet (heapGet h a) "server_name" (.str n)] ++ ext, ?_⟩
    rw [gatServer_cons]
    dsimp only
    rw [he, List.append_assoc]

/-- `get_all_tools` only ever appends to the heap. -/
theorem getAllTools_ext :
    ∀ (cache : List (String × List Nat)) (h : Heap),
      ∃ ext, (getAllTools h cache).1 = h ++ ext := by
  intro cache
  induction cache with
  | nil =>
    intro h
    exact ⟨[], by simp [getAllTools]⟩
  | cons p rest ih =>
    intro h
    obtain ⟨ext1, he1⟩ := gatServer_ext p.1 p.2 h
    obtain ⟨ext2, he2⟩ := ih (gatServer p.1 h p.2).1
    refine ⟨ext1 ++ ext2, ?_⟩
    rw [show p = (p.1, p.2) from rfl, getAllTools_cons]
    dsimp only
    rw [he2, he1, List.append_assoc]

/-- Addresses returned by the inner loop point into its final heap. -/
theorem gatServer_addrs_lt (n : String) :
    ∀ (as : List Nat) (h : Heap),
      ∀ x ∈ (gatServer n h as).2, x < (gatServer n h as).1.length := by
  intro as
  induction as with
  | nil =>
    intro h x hx
    simp [gatServer] at hx
  | cons a t ih =>
    intro h x hx
    rw [gatServer_cons] at hx ⊢
    dsimp only at hx ⊢
    obtain ⟨ext, he⟩ :=
      gatServer_ext n t (h ++ [alSet (heapGet h a) "server_name" (.str n)])
    rcases List.mem_cons.mp hx with hx | hx
    · subst hx
      rw [he]
      simp only [List.length_append, List.length_cons]
      have : (h ++ [alSet (heapGet h a) "server_name" (.str n)]).length =
          h.length + 1 := by simp
      omega
    · exact ih (h ++ [alSet (heapGet h a) "server_name" (.str n)]) x hx

/-- Contents behind the inner loop's returned addresses: annotated
copies of the cached dicts. -/
theorem gatServer_content (n : String) :
    ∀ (as : List Nat) (h : Heap),
      (∀ a ∈ as, a < h.length) →
      ((gatServer n h as).2).map (heapGet (gatServer n h as).1) =
        as.map (fun a => alSet (heapGet h a) "server_name" (.str n)) := by
  intro as
  induction as with
  | nil =>
    intro h _
    simp [gatServer]
  | cons a t ih =>
    intro h ha
    rw [gatServer_cons]
    dsimp only
    rw [List.map_cons]
    obtain ⟨ext, he⟩ :=
      gatServer_ext n t (h ++ [alSet (heapGet h a) "server_name" (.str n)])
    have hlt : h.length <
        (h ++ [alSet (heapGet h a) "server_name" (.str n)]).length := by
      simp
    have hhead :
        heapGet (gatServer n
            (h ++ [alSet (heapGet h a) "server_name" (.str n)]) t).1
          h.length = alSet (heapGet h a) "server_name" (.str n) := by
      rw [he, heapGet_append _ _ _ hlt, heapGet_append_self]
    rw [hhead]
    have htail := ih (h ++ [alSet (heapGet h a) "server_name" (.str n)])
      (fun x hx => lt_of_lt_of_le
        (ha x (List.mem_cons_of_mem a hx)) (by simp))
    rw [htail]
    have : ∀ x ∈ t,
        alSet (heapGet (h ++ [alSet (heapGet h a) "server_name" (.str n)]) x)
            "server_name" (.str n) =
          alSet (heapGet h x) "server_name" (.str n) := by
      intro x hx
      rw [heapGet_append _ _ _ (ha x (List.mem_cons_of_mem a hx))]
    rw [List.map_congr_left this]
    rfl

theorem getAllToolsSpec_congr (h1 h2 : Heap) :
    ∀ cache : List (String × List Nat),
      (∀ p ∈ cache, ∀ a ∈ p.2, heapGet h1 a = heapGet h2 a) →
      getAllToolsSpec h1 cache = getAllToolsSpec h2 cache := by
  intro cache
  induction cache with
  | nil =>
    intro _
    rfl
  | cons p rest ih =>
    intro hh
    unfold getAllToolsSpec
    rw [List.flatMap_cons, List.flatMap_cons]
    show _ ++ getAllToolsSpec h1 rest = _ ++ getAllToolsSpec h2 rest
    rw [ih (fun q hq => hh q (List.mem_cons_of_mem p hq)),
      List.map_congr_left (fun a ha => by
        rw [hh p (List.mem_cons_self p rest) a ha])]

/-- C10: `get_all_tools` leaves every dict the cache points at
unchanged (the heap is only extended), and the returned entries are
copies of the cached tool dicts with the owning server's name set under
`"server_name"`. -/
theorem get_all_tools_annotates_copies_only
    (h : Heap) (cache : List (String × List Nat))
    (hv : ∀ p ∈ cache, ∀ a ∈ p.2, a < h.length) :
    (∀ a, a < h.length → heapGet (getAllTools h cache).1 a = heapGet h a) ∧
    ((getAllTools h cache).2).map (heapGet (getAllTools h cache).1) =
      getAllToolsSpec h cache := by
  constructor
  · intro a ha
    obtain ⟨ext, he⟩ := getAllTools_ext cache h
    rw [he, heapGet_append _ _ _ ha]
  · induction cache generalizing h with
    | nil => rfl
    | cons p rest ih =>
      obtain ⟨ext1, he1⟩ := gatServer_ext p.1 p.2 h
      obtain ⟨ext2, he2⟩ := getAllTools_ext rest (gatServer p.1 h p.2).1
      have hv1 : ∀ a ∈ p.2, a < h.length := hv p (List.mem_cons_self p rest)
      have hlen1 : h.length ≤ (gatServer p.1 h p.2).1.length := by
        rw [he1]
        simp
      rw [show p = (p.1, p.2) from rfl] at hv ⊢
      rw [getAllTools_cons]
      dsimp only
      rw [List.map_append]
      have hfirst :
          ((gatServer p.1 h p.2).2).map
              (heapGet (getAllTools (gatServer p.1 h p.2).1 rest).1) =
            ((gatServer p.1 h p.2).2).map
              (heapGet (gatServer p.1 h p.2).1) := by
        refine List.map_congr_left ?_
        intro x hx
        rw [he2, heapGet_append _ _ _ (gatServer_addrs_lt p.1 p.2 h x hx)]
      have hrest := ih (gatServer p.1 h p.2).1
        (fun q hq a ha =>
          lt_of_lt_of_le (hv q (List.mem_cons_of_mem _ hq) a ha) hlen1)
      have hspec : getAllToolsSpec (gatServer p.1 h p.2).1 rest =
          getAllToolsSpec h rest := by
        refine getAllToolsSpec_congr _ _ rest ?_
        intro q hq a ha
        rw [he1,
          heapGet_append _ _ _ (hv q (List.mem_cons_of_mem _ hq) a ha)]
      rw [hfirst, gatServer_content p.1 p.2 h hv1, hrest, hspec]
      rfl

/-- Witness for C10 on a one-dict heap and one-server cache. -/
theorem get_all_tools_annotates_copies_only_witness :
    (∀ p ∈ [("S", [0])], ∀ a ∈ p.2, a < 1) ∧
    ((∀ a, a < ([[("name", Json.str "read_file")]] : Heap).length →
        heapGet (getAllTools [[("name", Json.str "read_file")]]
          [("S", [0])]).1 a =
          heapGet [[("name", Json.str "read_file")]] a) ∧
     ((getAllTools [[("name", Json.str "read_file")]] [("S", [0])]).2).map
         (heapGet (getAllTools [[("name", Json.str "read_file")]]
           [("S", [0])]).1) =
       getAllToolsSpec [[("name", Json.str "read_file")]] [("S", [0])]) :=
  ⟨by decide,
   get_all_tools_annotates_copies_only [[("name", Json.str "read_file")]]
     [("S", [0])] (by decide)⟩

end McpCore
